import Mathlib

/-!
Verification development for the theme-browser strategy-detection engine.

The definitions below are a shallow embedding of the TypeScript sources
`scripts/02-detect-strategies.ts` (strategy detection, patch engine) and
`scripts/build/generate-registry.mjs` (variant mode detection).

Embedding conventions:
* JavaScript numbers are modelled as exact rationals (`ℚ`); every score in
  the source is a small integer and every confidence a decimal with at most
  two digits, so the arithmetic of the claims is exact.
* JavaScript regular expression tests are modelled by a small executable
  matcher over lists of characters (`PatAtom` / `matchAtoms` / `search`).
  Each regex of the source is transcribed atom by atom; `/i` flags are
  modelled by lowercasing the subject once (all pattern literals are ASCII).
* Optional fields / `undefined` are modelled with `Option`; thrown
  exceptions with `Except String`; the JS `Map` built from an entry list
  (later entries win) with `mapGet`.
* `localeCompare` on lowercased names is modelled by the lexicographic
  order on lowercased strings, and the stable `Array.prototype.sort` by
  `List.insertionSort` (which is stable in the same sense).
-/

namespace ThemeBrowser

/-!
The library's `Rat.add` / `Rat.mul` / `Rat.div` are `@[irreducible]`, which
blocks kernel evaluation of concrete runs, so the embedding performs its
(exact) rational arithmetic through the following `mkRat`-based helpers.
Each computes the same rational as the corresponding library operation.
-/

/-- The rational `n / d` in a kernel-computable form. -/
def q (n : ℤ) (d : ℕ) : ℚ := mkRat n d

/-- Rational addition. -/
def addQ (a b : ℚ) : ℚ := mkRat (a.num * b.den + b.num * a.den) (a.den * b.den)

/-- Rational subtraction. -/
def subQ (a b : ℚ) : ℚ := mkRat (a.num * b.den - b.num * a.den) (a.den * b.den)

/-- Division of a rational by a natural number. -/
def divN (a : ℚ) (n : ℕ) : ℚ := mkRat a.num (a.den * n)

/-- Multiplication of a rational by a natural number. -/
def mulN (a : ℚ) (n : ℕ) : ℚ := mkRat (a.num * n) a.den

/-- The closed strategy taxonomy from `02-detect-strategies.ts`. -/
inductive StrategyType where
  | setup
  | load
  | colorscheme
  | file
  | unknown
deriving DecidableEq, Repr

/-- One weighted piece of evidence (`DetectionSignal` in the source). -/
structure DetectionSignal where
  strategy : StrategyType
  score : ℚ
  reason : String
deriving DecidableEq, Repr

/-- Result of the text classifier (`DetectionResult` in the source). -/
structure DetectionResult where
  detected : StrategyType
  confidence : ℚ
  signals : List DetectionSignal
  needsSourceInspection : Bool
deriving DecidableEq, Repr

/-- A `meta.strategy` value of a theme entry. The source type declares
`type` as required, but `applyPatch` builds the object from a possibly
absent `meta.strategy` before assigning `type`, so it is optional here. -/
structure Strategy where
  type : Option StrategyType
  module : Option String
  file : Option String
deriving DecidableEq, Repr

/-- The `meta` object of a theme entry. -/
structure ThemeMeta where
  strategy : Option Strategy
deriving DecidableEq, Repr

/-- A named variant of a theme. -/
structure Variant where
  name : String
  colorscheme : Option String
  mode : Option String
deriving DecidableEq, Repr

/-- A theme entry of the inventory / store (`ThemeEntry` in the source). -/
structure ThemeEntry where
  name : String
  repo : Option String
  colorscheme : Option String
  variants : Option (List Variant)
  meta : Option ThemeMeta
deriving DecidableEq, Repr

/-- The persisted store (`SourcesFile` in the source). -/
structure SourcesFile where
  overrides : List ThemeEntry
  builtin : Option (List ThemeEntry)
deriving DecidableEq, Repr

/-- One entry of a computed patch (`buildPatch` output element). -/
structure PatchEntry where
  repo : String
  strategy : StrategyType
  confidence : ℚ
deriving DecidableEq, Repr

/-- Row status of a detection row; `matched` stands for the source's
string literal "match" (a Lean keyword). -/
inductive RowStatus where
  | matched
  | mismatch
  | missingMeta
  | error
deriving DecidableEq, Repr

/-- One output row per repository (`DetectionRow` in the source); the
source's `currentStrategy` value `"missing"` is modelled as `none`. -/
structure DetectionRow where
  repo : String
  themeNames : List String
  currentStrategy : Option StrategyType
  detectedStrategy : StrategyType
  confidence : ℚ
  status : RowStatus
  signals : List DetectionSignal
  error : Option String
deriving DecidableEq, Repr

/-- One entry of a fetched git tree (`{path, type}` in the source). -/
structure TreeEntry where
  path : String
  type : String
deriving DecidableEq, Repr

instance {ε α : Type} [DecidableEq ε] [DecidableEq α] : DecidableEq (Except ε α) :=
  fun x y =>
    match x, y with
    | .ok a, .ok b =>
      if h : a = b then isTrue (by rw [h]) else isFalse (fun hh => h (Except.ok.inj hh))
    | .error a, .error b =>
      if h : a = b then isTrue (by rw [h]) else isFalse (fun hh => h (Except.error.inj hh))
    | .ok _, .error _ => isFalse (fun hh => Except.noConfusion hh)
    | .error _, .ok _ => isFalse (fun hh => Except.noConfusion hh)

/-- Lookup in a JS `Map` built with `new Map(entries)`: the last entry
with the key wins. -/
def mapGet {α : Type} (entries : List (String × α)) (key : String) : Option α :=
  entries.foldl (fun acc p => if p.1 = key then some p.2 else acc) none

/-- `repo.replace("/", "__")` — JS `String.replace` with a string pattern
replaces only the first occurrence. -/
def replaceFirstSlash : List Char → List Char
  | [] => []
  | c :: rest => if c = '/' then '_' :: '_' :: rest else c :: replaceFirstSlash rest

/-- `slugRepo` from the source. -/
def slugRepo (repo : String) : String :=
  String.mk (replaceFirstSlash repo.toList)

/-- `Number(x.toFixed(2))` on a nonnegative decimal: round to two decimal
digits, ties away from zero (for the nonnegative confidences of this
program that is floor of `x*100 + 1/2`). -/
def round2 (x : ℚ) : ℚ :=
  let y := addQ (mulN x 100) (q 1 2)
  mkRat (y.num.fdiv y.den) 100

/-- `[...new Set(xs)]`: deduplicate keeping first occurrences. -/
def jsDedup (l : List String) : List String :=
  l.foldl (fun acc x => if acc.contains x then acc else acc ++ [x]) []

/-! ### A tiny executable matcher for the regexes of the source

Atoms match a single character class, an optional character, a starred /
plussed class, or assert the end of the subject.  A regex literal is
transcribed with `litPat`; `search` implements an unanchored `test`. -/

/-- One atom of a transcribed regular expression. -/
inductive PatAtom where
  | one (cls : Char → Bool)
  | opt (cls : Char → Bool)
  | many (cls : Char → Bool)
  | plus (cls : Char → Bool)
  | eos

/-- Does a list of atoms match the empty subject? -/
def matchEmpty : List PatAtom → Bool
  | [] => true
  | .one _ :: _ => false
  | .opt _ :: rest => matchEmpty rest
  | .many _ :: rest => matchEmpty rest
  | .plus _ :: _ => false
  | .eos :: rest => matchEmpty rest

/-- One step of anchored matching on a non-empty subject `c :: s2`;
`next` matches a list of atoms against `s2`. -/
def matchStep (c : Char) (next : List PatAtom → Bool) : List PatAtom → Bool
  | [] => true
  | .one cls :: rest => cls c && next rest
  | .opt cls :: rest => (cls c && next rest) || matchStep c next rest
  | .many cls :: rest => matchStep c next rest || (cls c && next (.many cls :: rest))
  | .plus cls :: rest => cls c && next (.many cls :: rest)
  | .eos :: _ => false

/-- Anchored matching of a list of atoms, recursing over the subject. -/
def matchChars : List Char → List PatAtom → Bool
  | [] => matchEmpty
  | c :: s2 => matchStep c (matchChars s2)

/-- Anchored matching of a list of atoms at the head of the subject. -/
def matchAtoms (atoms : List PatAtom) (s : List Char) : Bool :=
  matchChars s atoms

/-- Unanchored `RegExp.test`: try to match at every start position. -/
def search (pat : List PatAtom) : List Char → Bool
  | [] => matchAtoms pat []
  | c :: s2 => matchAtoms pat (c :: s2) || search pat s2

/-- A literal string, one `PatAtom.one` per character. -/
def litPat (s : String) : List PatAtom :=
  s.toList.map (fun ch => PatAtom.one (fun c => c == ch))

/-! ### Character classes used by the regexes of the source -/

/-- The class `["']`. -/
def quoteCls (c : Char) : Bool := c == '"' || c == Char.ofNat 39

/-- The class `[^"']`. -/
def notQuoteCls (c : Char) : Bool := !(quoteCls c)

/-- The class `\s` (ASCII whitespace; the Unicode spaces JS also accepts
are not used by any subject in this development). -/
def wsCls (c : Char) : Bool :=
  c == ' ' || c == '\t' || c == '\n' || c == '\r' || c == Char.ofNat 11 || c == Char.ofNat 12

/-- The class `[a-z0-9_.-]` with `/i`, on a lowercased subject. -/
def nameCls (c : Char) : Bool :=
  (decide ('a' ≤ c) && decide (c ≤ 'z')) || (decide ('0' ≤ c) && decide (c ≤ '9')) ||
    c == '_' || c == '.' || c == '-'

/-- The class `[a-z_]` with `/i`, on a lowercased subject. -/
def gCls (c : Char) : Bool :=
  (decide ('a' ≤ c) && decide (c ≤ 'z')) || c == '_'

/-- The JS `.` class (anything but a line terminator). -/
def notNLCls (c : Char) : Bool :=
  !(c == '\n' || c == '\r' || c == Char.ofNat 0x2028 || c == Char.ofNat 0x2029)

/-- The class `[\s\S]` (any character). -/
def anyCls (_ : Char) : Bool := true

/-- The class `[^/]`. -/
def notSlashCls (c : Char) : Bool := !(c == '/')

/-- The character `\x7b` (opening curly brace). -/
def obr : Char := Char.ofNat 123

/-- The character `\x7d` (closing curly brace). -/
def cbr : Char := Char.ofNat 125

/-! ### The text rules of `detectFromText` -/

/-- Regex of the explicit load rule (weight 8). -/
def reqLoadPat : List PatAtom :=
  litPat "require(" ++ [.one quoteCls, .plus notQuoteCls, .one quoteCls] ++
    litPat ").load" ++ [.many wsCls] ++ litPat "("

/-- Regex of the generic `.load(` rule (weight 2, also needs `require(`). -/
def loadParenPat : List PatAtom :=
  litPat ".load" ++ [.many wsCls] ++ litPat "(" ++ [.many wsCls, .opt (fun c => c == obr)]

/-- Regex `require\(`. -/
def reqAnyPat : List PatAtom := litPat "require("

/-- Regex of the explicit setup rule (weight 6). -/
def reqSetupPat : List PatAtom :=
  litPat "require(" ++ [.one quoteCls, .plus notQuoteCls, .one quoteCls] ++
    litPat ").setup" ++ [.many wsCls] ++ litPat "("

/-- Regex of the `setup` options-block rule (weight 2). -/
def setupBlockPat : List PatAtom :=
  litPat "setup" ++ [.many wsCls] ++ litPat "(" ++
    [.many wsCls, .one (fun c => c == obr), .many anyCls, .one (fun c => c == cbr),
     .many wsCls] ++ litPat ")"

/-- Regex of the `:colorscheme` command rule (weight 4). -/
def colorschemeCmdPat : List PatAtom :=
  [PatAtom.opt (fun c => c == ':')] ++ litPat "colorscheme" ++ [.plus wsCls, .plus nameCls]

/-- Regex of the `vim.cmd("colorscheme ...")` rule (weight 4). -/
def vimCmdColorschemePat : List PatAtom :=
  litPat "vim.cmd" ++ [.many wsCls] ++ litPat "(" ++ [.many wsCls, .one quoteCls] ++
    litPat "colorscheme" ++ [.plus wsCls, .plus nameCls, .one quoteCls, .many wsCls] ++
    litPat ")"

/-- Regex of the `vim.cmd.colorscheme(...)` rule (weight 4). -/
def vimCmdDotColorschemePat : List PatAtom :=
  litPat "vim.cmd.colorscheme" ++ [.many wsCls] ++ litPat "(" ++
    [.many wsCls, .one quoteCls, .plus nameCls, .one quoteCls, .many wsCls] ++ litPat ")"

/-- Regex of the legacy `let g:` rule (weight 3, also needs no `require(`). -/
def letGPat : List PatAtom :=
  litPat "let" ++ [.plus wsCls] ++ litPat "g:" ++ [.plus gCls, .many wsCls] ++ litPat "="

/-- Regex `background\s*=\s*["']dark["']` (one arm of the alternation). -/
def backgroundDarkPat : List PatAtom :=
  litPat "background" ++ [.many wsCls] ++ litPat "=" ++ [.many wsCls, .one quoteCls] ++
    litPat "dark" ++ [.one quoteCls]

/-- Regex `background\s*=\s*["']light["']` (other arm of the alternation). -/
def backgroundLightPat : List PatAtom :=
  litPat "background" ++ [.many wsCls] ++ litPat "=" ++ [.many wsCls, .one quoteCls] ++
    litPat "light" ++ [.one quoteCls]

/-- Regex `colorscheme` (plain word). -/
def colorschemeWordPat : List PatAtom := litPat "colorscheme"

/-- Regex `before\s+loading`. -/
def beforeLoadingPat : List PatAtom := litPat "before" ++ [.plus wsCls] ++ litPat "loading"

/-- Regex `after\s+loading`. -/
def afterLoadingPat : List PatAtom := litPat "after" ++ [.plus wsCls] ++ litPat "loading"

/-- Regex `must\s+set\s+global`. -/
def mustSetGlobalPat : List PatAtom :=
  litPat "must" ++ [.plus wsCls] ++ litPat "set" ++ [.plus wsCls] ++ litPat "global"

/-- Outcome of every regex test `detectFromText` performs on a README. -/
structure TextFlags where
  reqLoad : Bool
  loadParen : Bool
  reqAny : Bool
  reqSetup : Bool
  setupBlock : Bool
  colorschemeCmd : Bool
  vimCmdColorscheme : Bool
  vimCmdDotColorscheme : Bool
  letG : Bool
  background : Bool
  colorschemeWord : Bool
  initOrdering : Bool
deriving DecidableEq, Repr

/-- `toLowerCase`, modelled character by character (ASCII). -/
def lowerChars (l : List Char) : List Char := l.map Char.toLower

/-- Evaluate every regex test of `detectFromText` on a README. -/
def computeFlags (readme : String) : TextFlags :=
  let t := lowerChars readme.toList
  { reqLoad := search reqLoadPat t
    loadParen := search loadParenPat t
    reqAny := search reqAnyPat t
    reqSetup := search reqSetupPat t
    setupBlock := search setupBlockPat t
    colorschemeCmd := search colorschemeCmdPat t
    vimCmdColorscheme := search vimCmdColorschemePat t
    vimCmdDotColorscheme := search vimCmdDotColorschemePat t
    letG := search letGPat t
    background := search backgroundDarkPat t || search backgroundLightPat t
    colorschemeWord := search colorschemeWordPat t
    initOrdering :=
      search beforeLoadingPat t || search afterLoadingPat t || search mustSetGlobalPat t }

/-- The signal list `detectFromText` pushes, in source order. -/
def textSignals (f : TextFlags) : List DetectionSignal :=
  (if f.reqLoad then [⟨.load, 8, "README contains require(...).load(...)"⟩] else []) ++
  (if f.loadParen && f.reqAny then [⟨.load, 2, "README shows .load() pattern"⟩] else []) ++
  (if f.reqSetup then [⟨.setup, 6, "README contains require(...).setup(...)"⟩] else []) ++
  (if f.setupBlock then [⟨.setup, 2, "README shows setup(\x7b...\x7d) options block"⟩] else []) ++
  (if f.colorschemeCmd then [⟨.colorscheme, 4, "README shows :colorscheme usage"⟩] else []) ++
  (if f.vimCmdColorscheme then
    [⟨.colorscheme, 4, "README shows vim.cmd(\"colorscheme ...\")"⟩] else []) ++
  (if f.vimCmdDotColorscheme then
    [⟨.colorscheme, 4, "README shows vim.cmd.colorscheme(...)"⟩] else []) ++
  (if f.letG && !f.reqAny then
    [⟨.colorscheme, 3, "README shows vim.g globals without require()"⟩] else []) ++
  (if f.background && f.colorschemeWord then
    [⟨.file, 2, "README suggests mode-dependent setup + colorscheme"⟩] else []) ++
  (if f.initOrdering then [⟨.file, 2, "README suggests custom init ordering"⟩] else [])

/-- Per-category score sums (the `tally` record of the source). -/
structure Tally where
  setup : ℚ
  load : ℚ
  colorscheme : ℚ
  file : ℚ
  unknown : ℚ
deriving DecidableEq, Repr

/-- Add one signal score to the tally. -/
def addSignal (t : Tally) (s : DetectionSignal) : Tally :=
  match s.strategy with
  | .setup => { t with setup := addQ t.setup s.score }
  | .load => { t with load := addQ t.load s.score }
  | .colorscheme => { t with colorscheme := addQ t.colorscheme s.score }
  | .file => { t with file := addQ t.file s.score }
  | .unknown => { t with unknown := addQ t.unknown s.score }

/-- Sum all signal scores per category. -/
def tallyOf (signals : List DetectionSignal) : Tally :=
  signals.foldl addSignal ⟨0, 0, 0, 0, 0⟩

/-- The two tie-break adjustments, applied in source order. -/
def adjustTally (t : Tally) : Tally :=
  let t1 := if t.load > 0 ∧ t.setup > 0 ∧ t.load ≥ t.setup then
    { t with load := addQ t.load 2 } else t
  if t1.setup > 0 ∧ t1.colorscheme > 0 then { t1 with setup := addQ t1.setup 3 } else t1

/-- The non-`unknown` categories ranked descending by tally; the stable JS
sort over the object-entry order `[setup, load, colorscheme, file]`. -/
def rankedOf (t : Tally) : List (StrategyType × ℚ) :=
  List.insertionSort (fun a b => a.2 ≥ b.2)
    [(.setup, t.setup), (.load, t.load), (.colorscheme, t.colorscheme), (.file, t.file)]

/-- The pure core of `detectFromText`, as a function of the regex-test
outcomes. -/
def detectFromTextFlags (f : TextFlags) : DetectionResult :=
  let signals := textSignals f
  let t := adjustTally (tallyOf signals)
  let ranked := rankedOf t
  let top := ranked.getD 0 (.unknown, 0)
  let second := ranked.getD 1 (.unknown, 0)
  let detected : StrategyType := if top.2 = 0 then .unknown else top.1
  let delta := max 0 (subQ top.2 second.2)
  let confidence : ℚ :=
    if detected = .unknown then 0 else min 1 (addQ (divN top.2 10) (divN delta 10))
  { detected := detected
    confidence := confidence
    signals := signals
    needsSourceInspection := (detected == .unknown) || decide (confidence < q 9 10) }

/-- `detectFromText` from the source. -/
def detectFromText (readme : String) : DetectionResult :=
  detectFromTextFlags (computeFlags readme)

/-- The adjusted tally `detectFromText` ranks (exposed for the claims
about concrete tally values). -/
def adjustedTally (readme : String) : Tally :=
  adjustTally (tallyOf (textSignals (computeFlags readme)))

/-! ### `inspectSource`: the structure extractor -/

/-- Regex `^lua\/[^/]+\/init\.lua$` with `/i`. -/
def luaInitPat : List PatAtom :=
  litPat "lua/" ++ [.plus notSlashCls] ++ litPat "/init.lua" ++ [PatAtom.eos]

/-- Regex `^lua\/[^/]+\.lua$` with `/i`. -/
def luaTopPat : List PatAtom :=
  litPat "lua/" ++ [.plus notSlashCls] ++ litPat ".lua" ++ [PatAtom.eos]

/-- Regex `^colors\/.+\.lua$` with `/i`. -/
def colorsLuaPat : List PatAtom :=
  litPat "colors/" ++ [.plus notNLCls] ++ litPat ".lua" ++ [PatAtom.eos]

/-- Regex `^colors\/.+\.vim$` with `/i`. -/
def colorsVimPat : List PatAtom :=
  litPat "colors/" ++ [.plus notNLCls] ++ litPat ".vim" ++ [PatAtom.eos]

/-- Regex `^plugin\/.+\.lua$` with `/i`. -/
def pluginLuaPat : List PatAtom :=
  litPat "plugin/" ++ [.plus notNLCls] ++ litPat ".lua" ++ [PatAtom.eos]

/-- An anchored (`^...$`) case-insensitive test of a whole path. -/
def pathTest (pat : List PatAtom) (f : String) : Bool :=
  matchAtoms pat (lowerChars f.toList)

/-- The non-empty result of `inspectSource` (the source returns a
`Partial<DetectionResult>` that is `{}` exactly when no structure signal
fired; that case is `none` here). -/
structure SrcResult where
  detected : StrategyType
  confidence : ℚ
  signals : List DetectionSignal
deriving DecidableEq, Repr

/-- The tail of `inspectSource`: empty signal list gives `{}` (here
`none`), otherwise the best tallied category with fixed confidence 0.5. -/
def srcResultOf (signals : List DetectionSignal) : Option SrcResult :=
  if signals.isEmpty then none
  else
    let t := tallyOf signals
    let best := (List.insertionSort (fun a b : StrategyType × ℚ => a.2 ≥ b.2)
      [(.setup, t.setup), (.load, t.load), (.colorscheme, t.colorscheme),
       (.file, t.file), (.unknown, t.unknown)]).getD 0 (.unknown, 0)
    some { detected := best.1, confidence := q 1 2, signals := signals }

/-- `inspectSource` from the source, as a function of the fetched tree. -/
def inspectSource (tree : List TreeEntry) : Option SrcResult :=
  let files := (tree.filter (fun t => t.type == "blob")).map (fun t => t.path)
  let hasLuaModule := files.any (fun f => pathTest luaInitPat f || pathTest luaTopPat f)
  let hasColorsLua := files.any (fun f => pathTest colorsLuaPat f)
  let hasColorsVim := files.any (fun f => pathTest colorsVimPat f)
  let hasPluginDir := files.any (fun f => pathTest pluginLuaPat f)
  let hasColorsDir := hasColorsLua || hasColorsVim
  let signals : List DetectionSignal :=
    (if hasColorsVim && !hasLuaModule && !hasColorsLua then
      [⟨.colorscheme, 6, "Repo has colors/*.vim without Lua module"⟩] else []) ++
    (if hasLuaModule && hasColorsLua then
      [⟨.setup, 4, "Repo has Lua module + colors/*.lua"⟩] else []) ++
    (if hasColorsLua && !hasLuaModule then
      [⟨.colorscheme, 5, "Repo has colors/*.lua without Lua module"⟩] else []) ++
    (if hasLuaModule && !hasColorsDir then
      [⟨.setup, 2, "Repo has Lua module without colors/"⟩] else []) ++
    (if hasPluginDir && hasLuaModule then
      [⟨.load, 2, "Repo has lua/ + plugin/ layout"⟩] else []) ++
    (if hasColorsVim && hasLuaModule && !hasColorsLua then
      [⟨.colorscheme, 4, "Repo has colors/*.vim + Lua module"⟩] else [])
  srcResultOf signals

/-! ### Escalation merge, hint layer, and `detectRepo` -/

/-- The escalation merge inside `detectRepo` (lines 417-434 of the
source): replace the winner when the text result was `unknown` or weak and
the structure result is usable; the new confidence is the `max` of both. -/
def mergeEscalation (det : DetectionResult) (src : Option SrcResult) : DetectionResult :=
  match src with
  | none => { det with signals := det.signals ++ [] }
  | some s =>
    if det.detected = .unknown ∨ (det.confidence < q 9 10 ∧ s.detected ≠ .unknown) then
      { detected := s.detected
        confidence := max det.confidence s.confidence
        signals := det.signals ++ s.signals
        needsSourceInspection := false }
    else { det with signals := det.signals ++ s.signals }

/-- `findCurrentStrategy` from the source; `none` models `"missing"`. -/
def findCurrentStrategy (repo : String) (sources : SourcesFile) : Option StrategyType :=
  (((sources.overrides.find? (fun o => o.repo == some repo)).bind
    (fun e => e.meta)).bind (fun m => m.strategy)).bind (fun s => s.type)

/-- The hint-override step of `detectRepo` (lines 436-443 of the source). -/
def applyHints (hintsMap : List (String × StrategyType)) (repo : String)
    (det : DetectionResult) : DetectionResult :=
  match mapGet hintsMap repo with
  | some strat =>
    { detected := strat
      confidence := 1
      signals := det.signals ++ [⟨strat, 10, "Manual hint override"⟩]
      needsSourceInspection := false }
  | none => det

/-- The escalation step of `detectRepo`: when the text result asks for
source inspection, fetch the tree (whose failure propagates) and merge
the structure result; otherwise pass the text result through. -/
def escalate (det : DetectionResult) (treeRes : Except String (List TreeEntry)) :
    Except String DetectionResult :=
  cond det.needsSourceInspection
    (match treeRes with
     | .error e => .error e
     | .ok tree => .ok (mergeEscalation det (inspectSource tree)))
    (.ok det)

/-- The hint step lifted over the escalation outcome: an error passes
through, a successful classification gets the hint override applied. -/
def hintStep (repo : String) (hintsMap : List (String × StrategyType)) :
    Except String DetectionResult → Except String DetectionResult
  | .error e => .error e
  | .ok det2 => .ok (applyHints hintsMap repo det2)

/-- The body of `detectRepo`'s `try` block: fetch/classify/escalate/hint.
The two fetches are passed as `Except` values: `.error e` models the
corresponding fetch throwing `e`. -/
def detectRepoBody (repo : String) (hintsMap : List (String × StrategyType))
    (readmeRes : Except String String) (treeRes : Except String (List TreeEntry)) :
    Except String DetectionResult :=
  match readmeRes with
  | .error e => .error e
  | .ok readme => hintStep repo hintsMap (escalate (detectFromText readme) treeRes)

/-- The tail of `detectRepo`: turn the body's outcome into a row; the
`catch` clause corresponds to the `.error` case. -/
def detectRepoRow (repo : String) (repoThemes : List ThemeEntry)
    (sources : SourcesFile) (body : Except String DetectionResult) : DetectionRow :=
  match body with
  | .ok det =>
    let current := findCurrentStrategy repo sources
    let status : RowStatus :=
      match current with
      | none => .missingMeta
      | some c => if c = det.detected then .matched else .mismatch
    { repo := repo
      themeNames := jsDedup (repoThemes.map (fun t => t.name))
      currentStrategy := current
      detectedStrategy := det.detected
      confidence := round2 det.confidence
      status := status
      signals := det.signals
      error := none }
  | .error e =>
    { repo := repo
      themeNames := jsDedup (repoThemes.map (fun t => t.name))
      currentStrategy := findCurrentStrategy repo sources
      detectedStrategy := .unknown
      confidence := 0
      status := .error
      signals := []
      error := some e }

/-- `detectRepo` from the source. -/
def detectRepo (repo : String) (repoThemes : List ThemeEntry) (sources : SourcesFile)
    (hintsMap : List (String × StrategyType))
    (readmeRes : Except String String) (treeRes : Except String (List TreeEntry)) :
    DetectionRow :=
  detectRepoRow repo repoThemes sources (detectRepoBody repo hintsMap readmeRes treeRes)

/-! ### Fetch/cache

The cache directory is modelled as an association list keyed by the
sanitized repo slug; a fresh write prepends (and shadows) the entry.  The
`remote` parameter stands for the out-of-scope transport call (`gh api`
plus decoding), `.error` modelling a throw. -/

/-- `fetchReadme` from the source: read-through cache unless `noCache`;
returns the text and the cache state after the call. -/
def fetchReadme (repo : String) (noCache : Bool) (cache : List (String × String))
    (remote : Except String String) : Except String (String × List (String × String)) :=
  let key := slugRepo repo
  match (if !noCache then List.lookup key cache else none) with
  | some cached => .ok (cached, cache)
  | none =>
    match remote with
    | .error e => .error e
    | .ok readme =>
      if noCache then .ok (readme, cache) else .ok (readme, (key, readme) :: cache)

/-- `fetchRepoTree` from the source.  A cached blob is stored as parsed
content or a parse failure: reading a corrupt blob (`JSON.parse` inside
`readJsonFile`) throws, and `fetchRepoTree` has no handler for it. -/
def fetchRepoTree (repo : String) (noCache : Bool)
    (cache : List (String × Except String (List TreeEntry)))
    (remote : Except String (List TreeEntry)) :
    Except String (List TreeEntry × List (String × Except String (List TreeEntry))) :=
  let key := slugRepo repo
  match (if !noCache then List.lookup key cache else none) with
  | some blob =>
    match blob with
    | .error e => .error e
    | .ok tree => .ok (tree, cache)
  | none =>
    match remote with
    | .error e => .error e
    | .ok tree =>
      if noCache then .ok (tree, cache) else .ok (tree, (key, .ok tree) :: cache)

/-! ### The patch engine -/

/-- `buildPatch` from the source. -/
def buildPatch (rows : List DetectionRow) : List PatchEntry :=
  (rows.filter (fun r =>
    (r.status == .mismatch || r.status == .missingMeta) &&
    r.detectedStrategy != .unknown &&
    decide (r.confidence ≥ q 9 10))).map
    (fun r => { repo := r.repo, strategy := r.detectedStrategy, confidence := r.confidence })

/-- JS truthiness of an optional repo string (`undefined` and `""` are
falsy). -/
def repoTruthy : Option String → Bool
  | none => false
  | some s => !(s == "")

/-- The `patchMap` of `applyPatch` (`new Map(...)`, later entries win). -/
def patchLookup (patch : List PatchEntry) (r : String) : Option StrategyType :=
  mapGet (patch.map (fun p => (p.repo, p.strategy))) r

/-- The per-entry update of `applyPatch`: set `meta.strategy.type` for
entries matched by the patch, creating `meta` / `strategy` as needed. -/
def updateEntry (pm : String → Option StrategyType) (entry : ThemeEntry) : ThemeEntry :=
  match entry.repo with
  | none => entry
  | some r =>
    if r = "" then entry
    else
      match pm r with
      | none => entry
      | some detected =>
        let meta := entry.meta.getD ⟨none⟩
        let strategy := meta.strategy.getD ⟨none, none, none⟩
        { entry with
          meta := some { meta with strategy := some { strategy with type := some detected } } }

/-- Membership of the `existingRepos` set of `applyPatch` (built from
entries with a truthy repo). -/
def existingRepoFlag (overrides : List ThemeEntry) (r : String) : Bool :=
  overrides.any (fun o => repoTruthy o.repo && (o.repo == some r))

/-- Executable lexicographic comparison of character lists (the model of
`localeCompare`-induced ordering on the lowercased keys). -/
def charsLe : List Char → List Char → Bool
  | [], _ => true
  | _ :: _, [] => false
  | a :: as, b :: bs => if a = b then charsLe as bs else decide (a < b)

/-- Sort key of the final store sort: the lowercased entry name
(`(a.name || "").toLowerCase()`). -/
def nameKey (e : ThemeEntry) : List Char := lowerChars e.name.toList

/-- The store order imposed by `applyPatch`. -/
def entryLe (a b : ThemeEntry) : Prop := charsLe (nameKey a) (nameKey b) = true

instance : DecidableRel entryLe := fun a b =>
  inferInstanceAs (Decidable (charsLe (nameKey a) (nameKey b) = true))

instance : IsTotal ThemeEntry entryLe := by
  constructor
  suffices h : ∀ as bs : List Char, charsLe as bs = true ∨ charsLe bs as = true by
    intro a b; exact h (nameKey a) (nameKey b)
  intro as
  induction as with
  | nil => intro bs; left; rfl
  | cons a as ih =>
    intro bs
    cases bs with
    | nil => right; rfl
    | cons b bs =>
      by_cases hab : a = b
      · subst hab
        rcases ih bs with h | h
        · left; simpa [charsLe] using h
        · right; simpa [charsLe] using h
      · rcases lt_trichotomy a b with h | h | h
        · left; simp [charsLe, hab, h]
        · exact absurd h hab
        · right
          have hba : ¬ b = a := fun hh => hab hh.symm
          simp [charsLe, hba, h]

instance : IsTrans ThemeEntry entryLe := by
  constructor
  suffices h : ∀ as bs cs : List Char,
      charsLe as bs = true → charsLe bs cs = true → charsLe as cs = true by
    intro a b c h1 h2; exact h (nameKey a) (nameKey b) (nameKey c) h1 h2
  intro as
  induction as with
  | nil => intro bs cs _ _; rfl
  | cons a as ih =>
    intro bs cs h1 h2
    cases bs with
    | nil => simp [charsLe] at h1
    | cons b bs =>
      cases cs with
      | nil => simp [charsLe] at h2
      | cons c cs =>
        by_cases hab : a = b <;> by_cases hbc : b = c
        · subst hab; subst hbc
          simp only [charsLe, if_pos rfl] at h1 h2 ⊢
          exact ih bs cs h1 h2
        · subst hab
          simp only [charsLe, if_neg hbc] at h2
          have hac : ¬ a = c := hbc
          simp only [charsLe, if_neg hac]
          exact h2
        · subst hbc
          simp only [charsLe, if_neg hab] at h1
          simp only [charsLe, if_neg hab]
          exact h1
        · simp only [charsLe, if_neg hab] at h1
          simp only [charsLe, if_neg hbc] at h2
          have h1a : a < b := of_decide_eq_true h1
          have h2a : b < c := of_decide_eq_true h2
          have hac : a < c := lt_trans h1a h2a
          simp [charsLe, ne_of_lt hac, hac]

/-- The entry `applyPatch` synthesizes for a patched repo that is missing
from the store but present in the inventory. -/
def synthEntry (p : PatchEntry) (theme : ThemeEntry) : ThemeEntry :=
  { name := theme.name
    repo := some p.repo
    colorscheme := theme.colorscheme
    variants := none
    meta := some ⟨some ⟨some p.strategy, none, none⟩⟩ }

/-- The `newEntries` loop of `applyPatch`. -/
def newEntries (overrides : List ThemeEntry) (patch : List PatchEntry)
    (themes : List ThemeEntry) : List ThemeEntry :=
  patch.filterMap (fun p =>
    if existingRepoFlag overrides p.repo then none
    else
      match themes.find? (fun t => t.repo == some p.repo) with
      | none => none
      | some theme => some (synthEntry p theme))

/-- `applyPatch` from the source: update matched entries, synthesize
entries for patched repos missing from the store but present in the
inventory, then sort everything by lowercased name (stable). -/
def applyPatch (sources : SourcesFile) (patch : List PatchEntry)
    (themes : List ThemeEntry) : SourcesFile :=
  { sources with
    overrides := List.insertionSort entryLe
      (sources.overrides.map (updateEntry (patchLookup patch)) ++
        newEntries sources.overrides patch themes) }

/-! ### The variant mode classifier (`generate-registry.mjs`) -/

/-- `light` / `dark` variant mode. -/
inductive ThemeMode where
  | light
  | dark
deriving DecidableEq, Repr

/-- Provenance of a variant mode result. -/
inductive ModeSource where
  | pattern
  | hint
  | unknown
deriving DecidableEq, Repr

/-- One element of the `detectVariantModesFromNames` output. -/
structure VariantModeResult where
  name : String
  detectedMode : Option ThemeMode
  confidence : ℚ
  source : ModeSource
  reason : Option String
deriving DecidableEq, Repr

/-- The `DARK_PATTERNS` suffixes (each source pattern is `/<word>$/i`). -/
def DARK_PATTERNS : List String :=
  ["dark", "night", "moon", "storm", "mocha", "frappe", "macchiato", "deep", "black",
   "shadow", "midnight", "abyss", "void", "dusk", "burned", "dim", "cool", "warm"]

/-- The `LIGHT_PATTERNS` suffixes (each source pattern is `/<word>$/i`). -/
def LIGHT_PATTERNS : List String :=
  ["light", "day", "sun", "latte", "bright", "white", "paper", "cream", "morning",
   "dawn", "clear", "ivory", "operandi", "written"]

/-- Test of one anchored suffix pattern `/<word>$/i` on a lowered name. -/
def suffixTest (suffix : String) (s : List Char) : Bool :=
  search (litPat suffix ++ [PatAtom.eos]) s

/-- `BASE16_LIGHT_PATTERN = /^base16-.+-light$/i`. -/
def base16LightTest (s : List Char) : Bool :=
  matchAtoms (litPat "base16-" ++ [.plus notNLCls] ++ litPat "-light" ++ [PatAtom.eos]) s

/-- `BASE16_DARK_PATTERN = /^base16-(?!.*-light$).+$/i`: the whole name is
`base16-` plus a non-empty line-terminator-free rest, and the negative
lookahead rules out names matching `^base16-.*-light$`. -/
def base16DarkTest (s : List Char) : Bool :=
  matchAtoms (litPat "base16-" ++ [.plus notNLCls] ++ [PatAtom.eos]) s &&
    !(matchAtoms (litPat "base16-" ++ [.many notNLCls] ++ litPat "-light" ++ [PatAtom.eos]) s)

/-- `detectVariantModeFromName` from `generate-registry.mjs`. -/
def detectVariantModeFromName (variantName : String) : Option ThemeMode :=
  let lower := lowerChars variantName.toList
  if base16LightTest lower then some .light
  else if base16DarkTest lower then some .dark
  else if LIGHT_PATTERNS.any (fun p => suffixTest p lower) then some .light
  else if DARK_PATTERNS.any (fun p => suffixTest p lower) then some .dark
  else none

/-- Render a mode the way the template literal of the source does. -/
def modeStr : ThemeMode → String
  | .light => "light"
  | .dark => "dark"

/-- `detectVariantModesFromNames` from `generate-registry.mjs`. -/
def detectVariantModesFromNames (variants : Option (List Variant)) :
    List VariantModeResult :=
  match variants with
  | none => []
  | some vs =>
    if vs.isEmpty then []
    else vs.map (fun v =>
      match detectVariantModeFromName v.name with
      | some mode =>
        { name := v.name
          detectedMode := some mode
          confidence := q 9 10
          source := .pattern
          reason := some ("Name matches " ++ modeStr mode ++ " pattern") }
      | none =>
        { name := v.name, detectedMode := none, confidence := 0,
          source := .unknown, reason := none })

/-! ### Helper lemmas about the patch engine -/

theorem mapGet_foldl_of_not_mem {α : Type} (k : String)
    (entries : List (String × α)) (acc : Option α)
    (h : ∀ e ∈ entries, e.1 ≠ k) :
    entries.foldl (fun acc p => if p.1 = k then some p.2 else acc) acc = acc := by
  induction entries generalizing acc with
  | nil => rfl
  | cons e es ih =>
    have he : e.1 ≠ k := h e (List.mem_cons_self e es)
    simp only [List.foldl_cons, if_neg he]
    exact ih acc (fun x hx => h x (List.mem_cons_of_mem e hx))

theorem mapGet_foldl_of_mem {α : Type} (k : String) (v : α)
    (entries : List (String × α)) (acc : Option α)
    (hdist : entries.Pairwise (fun a b => a.1 ≠ b.1))
    (hmem : (k, v) ∈ entries) :
    entries.foldl (fun acc p => if p.1 = k then some p.2 else acc) acc = some v := by
  induction entries generalizing acc with
  | nil => cases hmem
  | cons e es ih =>
    rcases List.pairwise_cons.mp hdist with ⟨hhead, htail⟩
    rcases List.mem_cons.mp hmem with heq | hmem2
    · subst heq
      simp only [List.foldl_cons, if_pos rfl]
      exact mapGet_foldl_of_not_mem k es (some v)
        (fun x hx hxk => hhead x hx (hxk ▸ rfl))
    · simp only [List.foldl_cons]
      exact ih _ htail hmem2

theorem mapGet_of_pairwise {α : Type} (k : String) (v : α)
    (entries : List (String × α))
    (hdist : entries.Pairwise (fun a b => a.1 ≠ b.1))
    (hmem : (k, v) ∈ entries) :
    mapGet entries k = some v :=
  mapGet_foldl_of_mem k v entries none hdist hmem

theorem patchLookup_eq_of_pairwise (patch : List PatchEntry) (p : PatchEntry)
    (hdist : patch.Pairwise (fun a b => a.repo ≠ b.repo))
    (hmem : p ∈ patch) :
    patchLookup patch p.repo = some p.strategy := by
  apply mapGet_of_pairwise
  · exact (List.pairwise_map).mpr (by
      refine hdist.imp ?_
      intro a b hab
      exact hab)
  · exact List.mem_map_of_mem (fun p => (p.repo, p.strategy)) hmem

theorem updateEntry_repo (pm : String → Option StrategyType) (e : ThemeEntry) :
    (updateEntry pm e).repo = e.repo := by
  rcases e with ⟨n, repo, cs, vars, meta⟩
  cases repo with
  | none => rfl
  | some r =>
    by_cases hr : r = ""
    · simp [updateEntry, hr]
    · cases hpm : pm r with
      | none => simp [updateEntry, hr, hpm]
      | some d => simp [updateEntry, hr, hpm]

theorem updateEntry_idem (pm : String → Option StrategyType) (e : ThemeEntry) :
    updateEntry pm (updateEntry pm e) = updateEntry pm e := by
  rcases e with ⟨n, repo, cs, vars, meta⟩
  cases repo with
  | none => rfl
  | some r =>
    by_cases hr : r = ""
    · simp [updateEntry, hr]
    · cases hpm : pm r with
      | none => simp [updateEntry, hr, hpm]
      | some d =>
        cases meta with
        | none => simp [updateEntry, hr, hpm]
        | some m =>
          rcases m with ⟨st⟩
          cases st with
          | none => simp [updateEntry, hr, hpm]
          | some stv => rcases stv with ⟨ty, mo, fi⟩; simp [updateEntry, hr, hpm]

theorem updateEntry_eq_self_of_none (pm : String → Option StrategyType) (e : ThemeEntry)
    (h : ∀ r, pm r = none) : updateEntry pm e = e := by
  rcases e with ⟨n, repo, cs, vars, meta⟩
  cases repo with
  | none => rfl
  | some r =>
    by_cases hr : r = ""
    · simp [updateEntry, hr]
    · simp [updateEntry, hr, h r]

theorem updateEntry_synthEntry (pm : String → Option StrategyType) (p : PatchEntry)
    (theme : ThemeEntry) (hr : p.repo ≠ "") (hpm : pm p.repo = some p.strategy) :
    updateEntry pm (synthEntry p theme) = synthEntry p theme := by
  simp [updateEntry, synthEntry, hr, hpm]

theorem list_map_fix {α : Type} (f : α → α) (l : List α) (h : ∀ x ∈ l, f x = x) :
    l.map f = l := by
  induction l with
  | nil => rfl
  | cons a as ih =>
    simp only [List.map_cons, h a (List.mem_cons_self a as)]
    rw [ih (fun x hx => h x (List.mem_cons_of_mem a hx))]

theorem existingRepoFlag_iff (l : List ThemeEntry) (r : String) :
    existingRepoFlag l r = true ↔
      ∃ o ∈ l, repoTruthy o.repo = true ∧ o.repo = some r := by
  simp only [existingRepoFlag, List.any_eq_true, Bool.and_eq_true, beq_iff_eq]

theorem applyPatch_overrides (s : SourcesFile) (patch : List PatchEntry)
    (inv : List ThemeEntry) :
    (applyPatch s patch inv).overrides = List.insertionSort entryLe
      (s.overrides.map (updateEntry (patchLookup patch)) ++
        newEntries s.overrides patch inv) := rfl

theorem mem_applyPatch (s : SourcesFile) (patch : List PatchEntry)
    (inv : List ThemeEntry) (e : ThemeEntry) :
    e ∈ (applyPatch s patch inv).overrides ↔
      e ∈ s.overrides.map (updateEntry (patchLookup patch)) ++
        newEntries s.overrides patch inv := by
  rw [applyPatch_overrides]
  exact List.mem_insertionSort entryLe

theorem mem_newEntries (ov : List ThemeEntry) (patch : List PatchEntry)
    (themes : List ThemeEntry) (e : ThemeEntry)
    (h : e ∈ newEntries ov patch themes) :
    ∃ p ∈ patch, ∃ theme : ThemeEntry,
      existingRepoFlag ov p.repo = false ∧
      themes.find? (fun t => t.repo == some p.repo) = some theme ∧
      e = synthEntry p theme := by
  rcases List.mem_filterMap.mp h with ⟨p, hp, hfp⟩
  refine ⟨p, hp, ?_⟩
  cases hex : existingRepoFlag ov p.repo with
  | true => rw [hex] at hfp; simp at hfp
  | false =>
    rw [hex] at hfp
    simp only [Bool.false_eq_true, if_false] at hfp
    cases hfind : themes.find? (fun t => t.repo == some p.repo) with
    | none => rw [hfind] at hfp; cases hfp
    | some theme =>
      rw [hfind] at hfp
      exact ⟨theme, rfl, rfl, (Option.some.inj hfp).symm⟩

theorem sorted_applyPatch (s : SourcesFile) (patch : List PatchEntry)
    (inv : List ThemeEntry) :
    List.Sorted entryLe (applyPatch s patch inv).overrides := by
  rw [applyPatch_overrides]
  exact List.sorted_insertionSort entryLe _

theorem sourcesFile_ext (x y : SourcesFile) (h1 : x.overrides = y.overrides)
    (h2 : x.builtin = y.builtin) : x = y := by
  cases x; cases y; simp_all

theorem existingRepoFlag_applyPatch_of_existing (s : SourcesFile)
    (patch : List PatchEntry) (inv : List ThemeEntry) (r : String)
    (h : existingRepoFlag s.overrides r = true) :
    existingRepoFlag (applyPatch s patch inv).overrides r = true := by
  rcases (existingRepoFlag_iff _ _).mp h with ⟨o, ho, htruthy, hrepo⟩
  apply (existingRepoFlag_iff _ _).mpr
  refine ⟨updateEntry (patchLookup patch) o, ?_, ?_, ?_⟩
  · exact (mem_applyPatch _ _ _ _).mpr
      (List.mem_append_left _ (List.mem_map_of_mem _ ho))
  · rw [updateEntry_repo]; exact htruthy
  · rw [updateEntry_repo]; exact hrepo

theorem existingRepoFlag_applyPatch_of_new (s : SourcesFile)
    (patch : List PatchEntry) (inv : List ThemeEntry) (p : PatchEntry)
    (hp : p ∈ patch) (hr : p.repo ≠ "")
    (hex : existingRepoFlag s.overrides p.repo = false)
    (theme : ThemeEntry)
    (hfind : inv.find? (fun t => t.repo == some p.repo) = some theme) :
    existingRepoFlag (applyPatch s patch inv).overrides p.repo = true := by
  apply (existingRepoFlag_iff _ _).mpr
  refine ⟨synthEntry p theme, ?_, ?_, rfl⟩
  · apply (mem_applyPatch _ _ _ _).mpr
    apply List.mem_append_right
    apply List.mem_filterMap.mpr
    exact ⟨p, hp, by rw [hex]; simp [hfind]⟩
  · simp [synthEntry, repoTruthy, hr]

theorem newEntries_applyPatch_eq_nil (s : SourcesFile) (patch : List PatchEntry)
    (inv : List ThemeEntry)
    (hne : ∀ p ∈ patch, p.repo ≠ "") :
    newEntries (applyPatch s patch inv).overrides patch inv = [] := by
  apply List.filterMap_eq_nil_iff.mpr
  intro p hp
  cases hex : existingRepoFlag s.overrides p.repo with
  | true =>
    rw [existingRepoFlag_applyPatch_of_existing s patch inv p.repo hex]
    simp
  | false =>
    cases hfind : inv.find? (fun t => t.repo == some p.repo) with
    | none =>
      cases hflag : existingRepoFlag (applyPatch s patch inv).overrides p.repo with
      | true => simp [hflag]
      | false => simp [hflag, hfind]
    | some theme =>
      rw [existingRepoFlag_applyPatch_of_new s patch inv p hp (hne p hp) hex theme hfind]
      simp

/-! ### Helper lemmas about the matcher -/

theorem matchAtoms_nil (s : List Char) : matchAtoms [] s = true := by
  cases s <;> rfl

theorem matchAtoms_lit_head (w : List Char) (rest : List PatAtom) :
    ∀ s : List Char,
      matchAtoms ((w.map fun ch => PatAtom.one (fun c => c == ch)) ++ rest) s = true →
      matchAtoms (w.map fun ch => PatAtom.one (fun c => c == ch)) s = true := by
  induction w with
  | nil => intro s _; exact matchAtoms_nil s
  | cons ch w ih =>
    intro s h
    cases s with
    | nil => exact absurd h (by simp [matchAtoms, matchChars, matchEmpty])
    | cons c s2 =>
      simp only [List.map_cons, List.cons_append, matchAtoms, matchChars, matchStep,
        Bool.and_eq_true] at h ⊢
      exact ⟨h.1, ih s2 h.2⟩

theorem search_mono (p pq : List PatAtom)
    (himp : ∀ s, matchAtoms p s = true → matchAtoms pq s = true) :
    ∀ s, search p s = true → search pq s = true := by
  intro s
  induction s with
  | nil => intro h; exact himp [] h
  | cons c s2 ih =>
    intro h
    rcases Bool.or_eq_true_iff.mp h with h1 | h2
    · exact Bool.or_eq_true_iff.mpr (Or.inl (himp _ h1))
    · exact Bool.or_eq_true_iff.mpr (Or.inr (ih h2))

theorem matchAtoms_lit_eos (w : List Char) :
    ∀ s : List Char,
      matchAtoms ((w.map fun ch => PatAtom.one (fun c => c == ch)) ++ [PatAtom.eos]) s
        = true ↔ s = w := by
  induction w with
  | nil =>
    intro s
    cases s <;> simp [matchAtoms, matchChars, matchEmpty, matchStep]
  | cons ch w ih =>
    intro s
    cases s with
    | nil => simp [matchAtoms, matchChars, matchEmpty]
    | cons c s2 =>
      have hstep : matchAtoms (((ch :: w).map fun ch => PatAtom.one (fun c => c == ch)) ++
          [PatAtom.eos]) (c :: s2) =
          ((c == ch) && matchAtoms ((w.map fun ch => PatAtom.one (fun c => c == ch)) ++
            [PatAtom.eos]) s2) := rfl
      rw [hstep, Bool.and_eq_true, beq_iff_eq, ih s2]
      constructor
      · rintro ⟨h1, h2⟩; rw [h1, h2]
      · intro h; injection h with h1 h2; exact ⟨h1, h2⟩

theorem suffixTest_iff (w : String) : ∀ s : List Char,
    suffixTest w s = true ↔ w.toList <:+ s := by
  intro s
  induction s with
  | nil =>
    show matchAtoms _ [] = true ↔ _
    rw [show (litPat w ++ [PatAtom.eos] : List PatAtom) =
      ((w.toList.map fun ch => PatAtom.one (fun c => c == ch)) ++ [PatAtom.eos]) from rfl]
    rw [matchAtoms_lit_eos w.toList []]
    simp [List.suffix_nil, eq_comm]
  | cons c s2 ih =>
    show (matchAtoms _ (c :: s2) || search _ s2) = true ↔ _
    rw [Bool.or_eq_true_iff]
    rw [show (litPat w ++ [PatAtom.eos] : List PatAtom) =
      ((w.toList.map fun ch => PatAtom.one (fun c => c == ch)) ++ [PatAtom.eos]) from rfl]
    rw [matchAtoms_lit_eos w.toList (c :: s2)]
    rw [show search ((w.toList.map fun ch => PatAtom.one (fun c => c == ch)) ++
      [PatAtom.eos]) s2 = suffixTest w s2 from rfl]
    rw [ih]
    rw [List.suffix_cons_iff]
    constructor
    · rintro (h | h)
      · exact Or.inl h.symm
      · exact Or.inr h
    · rintro (h | h)
      · exact Or.inl h.symm
      · exact Or.inr h

theorem reqAny_of_reqSetup (text : String)
    (h : (computeFlags text).reqSetup = true) :
    (computeFlags text).reqAny = true := by
  have h2 : search reqSetupPat (lowerChars text.toList) = true := h
  have hassoc : reqSetupPat = litPat "require(" ++
      ([PatAtom.one quoteCls, .plus notQuoteCls, .one quoteCls] ++
        (litPat ").setup" ++ ([PatAtom.many wsCls] ++ litPat "("))) := by
    simp [reqSetupPat, List.append_assoc]
  rw [hassoc] at h2
  show search reqAnyPat (lowerChars text.toList) = true
  refine search_mono _ _ ?_ _ h2
  intro s hs
  exact matchAtoms_lit_head ("require(".toList) _ s hs

/-! ### Misc helper lemmas -/

theorem round2_one : round2 1 = 1 := by decide

theorem srcResultOf_confidence (signals : List DetectionSignal) (s : SrcResult)
    (h : srcResultOf signals = some s) : s.confidence = q 1 2 := by
  unfold srcResultOf at h
  split at h
  · cases h
  · rw [← Option.some.inj h]

theorem inspectSource_confidence (tree : List TreeEntry) (s : SrcResult)
    (h : inspectSource tree = some s) : s.confidence = q 1 2 :=
  srcResultOf_confidence _ s h

theorem escalate_err (det : DetectionResult) (e : String)
    (hni : det.needsSourceInspection = true) :
    escalate det (.error e) = .error e := by
  unfold escalate
  rw [hni]
  rfl

theorem escalate_ok (det : DetectionResult) (tree : List TreeEntry)
    (hni : det.needsSourceInspection = true) :
    escalate det (.ok tree) = .ok (mergeEscalation det (inspectSource tree)) := by
  unfold escalate
  rw [hni]
  rfl

theorem escalate_no (det : DetectionResult) (treeRes : Except String (List TreeEntry))
    (hni : det.needsSourceInspection = false) :
    escalate det treeRes = .ok det := by
  unfold escalate
  rw [hni]
  rfl

theorem detectRepoBody_ok (repo : String) (hintsMap : List (String × StrategyType))
    (readme : String) (treeRes : Except String (List TreeEntry)) :
    detectRepoBody repo hintsMap (.ok readme) treeRes =
      hintStep repo hintsMap (escalate (detectFromText readme) treeRes) := rfl

theorem detectRepoBody_esc_err (repo : String) (hintsMap : List (String × StrategyType))
    (readme : String) (e : String)
    (hni : (detectFromText readme).needsSourceInspection = true) :
    detectRepoBody repo hintsMap (.ok readme) (.error e) = .error e := by
  rw [detectRepoBody_ok, escalate_err _ e hni]
  rfl

theorem detectRepoBody_esc_ok (repo : String) (hintsMap : List (String × StrategyType))
    (readme : String) (tree : List TreeEntry)
    (hni : (detectFromText readme).needsSourceInspection = true) :
    detectRepoBody repo hintsMap (.ok readme) (.ok tree) =
      .ok (applyHints hintsMap repo
        (mergeEscalation (detectFromText readme) (inspectSource tree))) := by
  rw [detectRepoBody_ok, escalate_ok _ tree hni]
  rfl

theorem detectRepoBody_no_esc (repo : String) (hintsMap : List (String × StrategyType))
    (readme : String) (treeRes : Except String (List TreeEntry))
    (hni : (detectFromText readme).needsSourceInspection = false) :
    detectRepoBody repo hintsMap (.ok readme) treeRes =
      .ok (applyHints hintsMap repo (detectFromText readme)) := by
  rw [detectRepoBody_ok, escalate_no _ treeRes hni]
  rfl

theorem mergeEscalation_some_replace (det : DetectionResult) (s : SrcResult)
    (hcond : det.detected = .unknown ∨
      (det.confidence < q 9 10 ∧ s.detected ≠ .unknown)) :
    mergeEscalation det (some s) =
      { detected := s.detected
        confidence := max det.confidence s.confidence
        signals := det.signals ++ s.signals
        needsSourceInspection := false } := by
  have h : mergeEscalation det (some s) =
      (if det.detected = .unknown ∨
          (det.confidence < q 9 10 ∧ s.detected ≠ .unknown) then
        ({ detected := s.detected
           confidence := max det.confidence s.confidence
           signals := det.signals ++ s.signals
           needsSourceInspection := false } : DetectionResult)
      else { det with signals := det.signals ++ s.signals }) := rfl
  rw [h, if_pos hcond]

theorem mergeEscalation_none (det : DetectionResult) :
    mergeEscalation det none = { det with signals := det.signals ++ [] } := rfl

theorem applyHints_of_hint (hintsMap : List (String × StrategyType)) (repo : String)
    (det : DetectionResult) (strat : StrategyType)
    (hhint : mapGet hintsMap repo = some strat) :
    applyHints hintsMap repo det =
      { detected := strat
        confidence := 1
        signals := det.signals ++ [⟨strat, 10, "Manual hint override"⟩]
        needsSourceInspection := false } := by
  simp only [applyHints, hhint]

theorem detectRepoRow_ok_detected (repo : String) (th : List ThemeEntry)
    (s : SourcesFile) (det : DetectionResult) :
    (detectRepoRow repo th s (.ok det)).detectedStrategy = det.detected := rfl

theorem detectRepoRow_ok_confidence (repo : String) (th : List ThemeEntry)
    (s : SourcesFile) (det : DetectionResult) :
    (detectRepoRow repo th s (.ok det)).confidence = round2 det.confidence := rfl

theorem detectRepoRow_ok_signals (repo : String) (th : List ThemeEntry)
    (s : SourcesFile) (det : DetectionResult) :
    (detectRepoRow repo th s (.ok det)).signals = det.signals := rfl

theorem detectRepoRow_error_status (repo : String) (th : List ThemeEntry)
    (s : SourcesFile) (e : String) :
    (detectRepoRow repo th s (.error e)).status = .error := rfl

theorem detectRepoRow_error_error (repo : String) (th : List ThemeEntry)
    (s : SourcesFile) (e : String) :
    (detectRepoRow repo th s (.error e)).error = some e := rfl

theorem applyPatch_mem_fixpoint (s : SourcesFile) (patch : List PatchEntry)
    (inv : List ThemeEntry)
    (hdist : patch.Pairwise (fun a b => a.repo ≠ b.repo))
    (hne : ∀ p ∈ patch, p.repo ≠ "") :
    ∀ e ∈ (applyPatch s patch inv).overrides,
      updateEntry (patchLookup patch) e = e := by
  intro e he
  rcases List.mem_append.mp ((mem_applyPatch _ _ _ _).mp he) with hm | hn
  · rcases List.mem_map.mp hm with ⟨x, _, hx⟩
    rw [← hx]
    exact updateEntry_idem _ x
  · rcases mem_newEntries _ _ _ _ hn with ⟨p, hp, theme, _, _, hsyn⟩
    rw [hsyn]
    exact updateEntry_synthEntry _ p theme (hne p hp)
      (patchLookup_eq_of_pairwise patch p hdist hp)

/-! ### Claim theorems -/

/-- C10: `applyPatch` always returns a store whose overrides list is
sorted by lowercased entry name, regardless of the input order; applying
an empty patch re-sorts the overrides without changing any entry (the
result is exactly the stable sort of the input list, a permutation of
it), so an unsorted store changes order even under an empty patch. -/
theorem C10_applyPatch_sorted (s : SourcesFile) (patch : List PatchEntry)
    (inv : List ThemeEntry) :
    List.Sorted entryLe (applyPatch s patch inv).overrides ∧
    (applyPatch s [] inv).overrides = List.insertionSort entryLe s.overrides ∧
    (applyPatch s [] inv).overrides.Perm s.overrides := by
  have h2 : (applyPatch s [] inv).overrides = List.insertionSort entryLe s.overrides := by
    rw [applyPatch_overrides]
    have h1 : newEntries s.overrides [] inv = [] := rfl
    rw [h1, List.append_nil]
    congr 1
    apply list_map_fix
    intro e _
    exact updateEntry_eq_self_of_none _ e (fun r => rfl)
  refine ⟨sorted_applyPatch s patch inv, h2, ?_⟩
  rw [h2]
  exact List.perm_insertionSort entryLe s.overrides

/-- C2 counterexample: `applyPatch` is not idempotent for every patch
list.  A patch with two entries for the same repo (with different
strategies) that is absent from the store but present in the inventory
synthesizes two store entries on the first application; the second
application rewrites both to the last strategy of the patch, so the store
changes. -/
theorem C2_counterexample :
    applyPatch (applyPatch ⟨[], none⟩
        [⟨"o/r", .setup, 1⟩, ⟨"o/r", .load, 1⟩]
        [⟨"a", some "o/r", none, none, none⟩])
      [⟨"o/r", .setup, 1⟩, ⟨"o/r", .load, 1⟩]
      [⟨"a", some "o/r", none, none, none⟩]
    ≠ applyPatch ⟨[], none⟩
        [⟨"o/r", .setup, 1⟩, ⟨"o/r", .load, 1⟩]
        [⟨"a", some "o/r", none, none, none⟩] := by decide

/-- C2 (amended): `applyPatch` is idempotent for every store and
inventory, and every patch whose entries have pairwise distinct, non-empty
repos (which holds for every patch `buildPatch` produces, one entry per
repository row): reapplying the patch returns an identical store. -/
theorem C2_applyPatch_idem (s : SourcesFile) (patch : List PatchEntry)
    (inv : List ThemeEntry)
    (hdist : patch.Pairwise (fun a b => a.repo ≠ b.repo))
    (hne : ∀ p ∈ patch, p.repo ≠ "") :
    applyPatch (applyPatch s patch inv) patch inv = applyPatch s patch inv := by
  apply sourcesFile_ext
  · rw [applyPatch_overrides (applyPatch s patch inv) patch inv]
    rw [newEntries_applyPatch_eq_nil s patch inv hne, List.append_nil]
    rw [list_map_fix _ _ (applyPatch_mem_fixpoint s patch inv hdist hne)]
    exact List.Sorted.insertionSort_eq (sorted_applyPatch s patch inv)
  · rfl

/-- C2 witness: the idempotence theorem applied to a concrete store,
patch, and inventory. -/
theorem C2_witness :
    ([⟨"o/r", .setup, 1⟩] : List PatchEntry).Pairwise (fun a b => a.repo ≠ b.repo) ∧
    (∀ p ∈ ([⟨"o/r", .setup, 1⟩] : List PatchEntry), p.repo ≠ "") ∧
    applyPatch (applyPatch ⟨[], none⟩ [⟨"o/r", .setup, 1⟩]
        [⟨"a", some "o/r", none, none, none⟩])
      [⟨"o/r", .setup, 1⟩] [⟨"a", some "o/r", none, none, none⟩]
      = applyPatch ⟨[], none⟩ [⟨"o/r", .setup, 1⟩]
        [⟨"a", some "o/r", none, none, none⟩] :=
  ⟨List.pairwise_singleton _ _, by decide,
    C2_applyPatch_idem ⟨[], none⟩ [⟨"o/r", .setup, 1⟩]
      [⟨"a", some "o/r", none, none, none⟩] (List.pairwise_singleton _ _) (by decide)⟩

/-- C3: `buildPatch` emits the entry `{repo, category, confidence}` for
exactly the rows whose status is mismatch or missing-meta, whose detected
strategy is not `unknown`, and whose confidence is at least 0.9. -/
theorem C3_buildPatch_iff (rows : List DetectionRow) :
    (∀ r ∈ rows,
      ((r.status = .mismatch ∨ r.status = .missingMeta) ∧
        r.detectedStrategy ≠ .unknown ∧ q 9 10 ≤ r.confidence) →
      ({ repo := r.repo, strategy := r.detectedStrategy, confidence := r.confidence } :
        PatchEntry) ∈ buildPatch rows) ∧
    (∀ e ∈ buildPatch rows, ∃ r ∈ rows,
      (r.status = .mismatch ∨ r.status = .missingMeta) ∧
      r.detectedStrategy ≠ .unknown ∧ q 9 10 ≤ r.confidence ∧
      e = { repo := r.repo, strategy := r.detectedStrategy,
            confidence := r.confidence }) := by
  constructor
  · intro r hr hcond
    apply List.mem_map_of_mem
    apply List.mem_filter.mpr
    refine ⟨hr, ?_⟩
    rcases hcond with ⟨hst, hdet, hconf⟩
    simp only [Bool.and_eq_true, Bool.or_eq_true, beq_iff_eq, bne_iff_ne,
      decide_eq_true_eq, ge_iff_le]
    exact ⟨⟨hst, hdet⟩, hconf⟩
  · intro e he
    rcases List.mem_map.mp he with ⟨r, hrf, hre⟩
    rcases List.mem_filter.mp hrf with ⟨hr, hcond⟩
    simp only [Bool.and_eq_true, Bool.or_eq_true, beq_iff_eq, bne_iff_ne,
      decide_eq_true_eq, ge_iff_le] at hcond
    exact ⟨r, hr, hcond.1.1, hcond.1.2, hcond.2, hre.symm⟩

/-- C3 witness: a mismatch row with confidence 1 produces its patch entry,
applied to a singleton row list. -/
theorem C3_witness :
    ({ repo := "o/r", strategy := .setup, confidence := 1 } : PatchEntry) ∈
      buildPatch [⟨"o/r", [], some .colorscheme, .setup, 1, .mismatch, [], none⟩] :=
  (C3_buildPatch_iff [⟨"o/r", [], some .colorscheme, .setup, 1, .mismatch, [], none⟩]).1
    ⟨"o/r", [], some .colorscheme, .setup, 1, .mismatch, [], none⟩
    (List.mem_singleton_self _) (by refine ⟨Or.inl rfl, ?_, by decide⟩; decide)

/-- C1 counterexample: a hint override is not applied on the error path.
With a strategy hint present for the repo, a README fetch that throws
produces a row with `detectedStrategy = unknown` and `confidence = 0`
(status `error`), not the hinted strategy with confidence 1.0. -/
theorem C1_counterexample :
    mapGet [("o/r", StrategyType.setup)] "o/r" = some .setup ∧
    (detectRepo "o/r" [] ⟨[], none⟩ [("o/r", .setup)]
      (.error "network error") (.ok [])).detectedStrategy = .unknown ∧
    (detectRepo "o/r" [] ⟨[], none⟩ [("o/r", .setup)]
      (.error "network error") (.ok [])).detectedStrategy ≠ .setup ∧
    (detectRepo "o/r" [] ⟨[], none⟩ [("o/r", .setup)]
      (.error "network error") (.ok [])).confidence = 0 ∧
    (detectRepo "o/r" [] ⟨[], none⟩ [("o/r", .setup)]
      (.error "network error") (.ok [])).status = .error := by decide

/-- C1 (amended): whenever the hints map contains a strategy override for
the repo and no fetch error occurs (the row's status is not `error`), the
row produced by `detectRepo` has `detectedStrategy` equal to the hint,
confidence exactly 1.0, and the synthetic override signal appended last,
regardless of any computed signals. -/
theorem C1_hint_override (repo : String) (repoThemes : List ThemeEntry)
    (sources : SourcesFile) (hintsMap : List (String × StrategyType))
    (readmeRes : Except String String) (treeRes : Except String (List TreeEntry))
    (strat : StrategyType)
    (hhint : mapGet hintsMap repo = some strat)
    (hok : (detectRepo repo repoThemes sources hintsMap readmeRes treeRes).status ≠
      .error) :
    (detectRepo repo repoThemes sources hintsMap readmeRes treeRes).detectedStrategy
      = strat ∧
    (detectRepo repo repoThemes sources hintsMap readmeRes treeRes).confidence = 1 ∧
    (detectRepo repo repoThemes sources hintsMap readmeRes treeRes).signals.getLast?
      = some ⟨strat, 10, "Manual hint override"⟩ := by
  cases readmeRes with
  | error e => exact absurd rfl hok
  | ok readme =>
    cases hni : (detectFromText readme).needsSourceInspection with
    | true =>
      cases treeRes with
      | error e =>
        exfalso
        apply hok
        simp only [detectRepo]
        rw [detectRepoBody_esc_err repo hintsMap readme e hni]
        exact detectRepoRow_error_status repo repoThemes sources e
      | ok tree =>
        refine ⟨?_, ?_, ?_⟩ <;>
          simp only [detectRepo] <;>
          rw [detectRepoBody_esc_ok repo hintsMap readme tree hni]
        · rw [detectRepoRow_ok_detected,
            applyHints_of_hint hintsMap repo _ strat hhint]
        · rw [detectRepoRow_ok_confidence,
            applyHints_of_hint hintsMap repo _ strat hhint]
          exact round2_one
        · rw [detectRepoRow_ok_signals,
            applyHints_of_hint hintsMap repo _ strat hhint]
          show ((mergeEscalation (detectFromText readme) (inspectSource tree)).signals ++
            ([⟨strat, 10, "Manual hint override"⟩] : List DetectionSignal)).getLast? =
            some ⟨strat, 10, "Manual hint override"⟩
          exact List.getLast?_concat _
    | false =>
      refine ⟨?_, ?_, ?_⟩ <;>
        simp only [detectRepo] <;>
        rw [detectRepoBody_no_esc repo hintsMap readme treeRes hni]
      · rw [detectRepoRow_ok_detected,
          applyHints_of_hint hintsMap repo _ strat hhint]
      · rw [detectRepoRow_ok_confidence,
          applyHints_of_hint hintsMap repo _ strat hhint]
        exact round2_one
      · rw [detectRepoRow_ok_signals,
          applyHints_of_hint hintsMap repo _ strat hhint]
        show ((detectFromText readme).signals ++
          ([⟨strat, 10, "Manual hint override"⟩] : List DetectionSignal)).getLast? =
          some ⟨strat, 10, "Manual hint override"⟩
        exact List.getLast?_concat _

/-- C1 witness: the amended hint theorem applied to a concrete successful
run (empty README, empty tree, hint `setup`). -/
theorem C1_witness :
    mapGet [("o/r", StrategyType.setup)] "o/r" = some .setup ∧
    (detectRepo "o/r" [] ⟨[], none⟩ [("o/r", .setup)] (.ok "") (.ok [])).status ≠
      .error ∧
    ((detectRepo "o/r" [] ⟨[], none⟩ [("o/r", .setup)] (.ok "")
        (.ok [])).detectedStrategy = .setup ∧
      (detectRepo "o/r" [] ⟨[], none⟩ [("o/r", .setup)] (.ok "") (.ok [])).confidence
        = 1 ∧
      (detectRepo "o/r" [] ⟨[], none⟩ [("o/r", .setup)] (.ok "")
        (.ok [])).signals.getLast? = some ⟨.setup, 10, "Manual hint override"⟩) :=
  ⟨by decide, by decide,
    C1_hint_override "o/r" [] ⟨[], none⟩ [("o/r", .setup)] (.ok "") (.ok [])
      .setup (by decide) (by decide)⟩

/-- C4 counterexample: with `noCache` enabled the fetch does not write the
cache.  After a `noCache` fetch of "hello" the cache is still empty, so a
subsequent run with caching enabled finds no cached entry and must hit
the remote again (here: it fails instead of serving "hello"). -/
theorem C4_counterexample :
    fetchReadme "o/r" true [] (.ok "hello") = .ok ("hello", []) ∧
    List.lookup (slugRepo "o/r") ([] : List (String × String)) = none ∧
    fetchReadme "o/r" false [] (.error "network down") = .error "network down" := by
  decide

/-- C4 (amended): with `noCache` enabled, `fetchReadme` and
`fetchRepoTree` bypass the cache in both directions: the result comes
from the remote source even when a cached entry exists, and the cache is
left unchanged (no write happens). -/
theorem C4_noCache_bypasses_cache (repo : String)
    (rcache : List (String × String))
    (tcache : List (String × Except String (List TreeEntry)))
    (remoteText : Except String String)
    (remoteTree : Except String (List TreeEntry)) :
    fetchReadme repo true rcache remoteText =
      remoteText.map (fun t => (t, rcache)) ∧
    fetchRepoTree repo true tcache remoteTree =
      remoteTree.map (fun t => (t, tcache)) := by
  constructor
  · cases remoteText <;> simp [fetchReadme, Except.map]
  · cases remoteTree <;> simp [fetchRepoTree, Except.map]

/-- C5 counterexample: a corrupt cached tree blob is not treated as a
cache miss.  The parse error propagates out of `fetchRepoTree` (no
re-fetch from the intact remote), and a detection run needing the tree
turns it into an `error` row — the repository's detection fails. -/
theorem C5_counterexample :
    fetchRepoTree "o/r" false [(slugRepo "o/r", .error "bad json")]
      (.ok [⟨"colors/a.vim", "blob"⟩]) = .error "bad json" ∧
    (detectRepo "o/r" [] ⟨[], none⟩ [] (.ok "") (.error "bad json")).status
      = .error ∧
    (detectRepo "o/r" [] ⟨[], none⟩ [] (.ok "") (.error "bad json")).error
      = some "bad json" := by decide

/-- C5 (amended): when the cache holds a corrupt blob for the repo, a
cache-enabled `fetchRepoTree` returns that parse error without consulting
the remote source; a detection run that needs the tree catches the error
and degrades to a row with status `error` carrying the message — the run
itself never crashes. -/
theorem C5_corrupt_cache_errors (repo : String)
    (cache : List (String × Except String (List TreeEntry)))
    (remote : Except String (List TreeEntry)) (e : String)
    (hc : List.lookup (slugRepo repo) cache = some (.error e))
    (readme : String) (repoThemes : List ThemeEntry) (sources : SourcesFile)
    (hintsMap : List (String × StrategyType))
    (hni : (detectFromText readme).needsSourceInspection = true) :
    fetchRepoTree repo false cache remote = .error e ∧
    (detectRepo repo repoThemes sources hintsMap (.ok readme)
      (.error e)).status = .error ∧
    (detectRepo repo repoThemes sources hintsMap (.ok readme)
      (.error e)).error = some e := by
  refine ⟨?_, ?_, ?_⟩
  · simp [fetchRepoTree, hc]
  · simp only [detectRepo]
    rw [detectRepoBody_esc_err repo hintsMap readme e hni]
    exact detectRepoRow_error_status repo repoThemes sources e
  · simp only [detectRepo]
    rw [detectRepoBody_esc_err repo hintsMap readme e hni]
    exact detectRepoRow_error_error repo repoThemes sources e

/-- C5 witness: the corrupt-cache theorem applied to a concrete cache
holding a parse failure and an empty README (which needs escalation). -/
theorem C5_witness :
    List.lookup (slugRepo "o/r")
      [(slugRepo "o/r", (.error "bad json" : Except String (List TreeEntry)))]
      = some (.error "bad json") ∧
    (detectFromText "").needsSourceInspection = true ∧
    (fetchRepoTree "o/r" false [(slugRepo "o/r", .error "bad json")] (.ok [])
        = .error "bad json" ∧
      (detectRepo "o/r" [] ⟨[], none⟩ [] (.ok "") (.error "bad json")).status
        = .error ∧
      (detectRepo "o/r" [] ⟨[], none⟩ [] (.ok "") (.error "bad json")).error
        = some "bad json") :=
  ⟨by decide, by decide,
    C5_corrupt_cache_errors "o/r" [(slugRepo "o/r", .error "bad json")] (.ok [])
      "bad json" (by decide) "" [] ⟨[], none⟩ [] (by decide)⟩

/-- C6 counterexample: during escalation the replaced confidence is not
the structure extractor's fixed 0.5 but the maximum of both confidences.
A README with text-only confidence 0.6 (below 0.9) and a tree for which
the structure extractor wins with `setup` yields final confidence 0.6,
not 0.5. -/
theorem C6_counterexample :
    (detectFromText ":colorscheme foo before loading").confidence = q 3 5 ∧
    (detectFromText ":colorscheme foo before loading").confidence < q 9 10 ∧
    ((inspectSource [⟨"lua/foo/init.lua", "blob"⟩, ⟨"colors/foo.lua", "blob"⟩]).map
      (fun s => s.detected)) = some .setup ∧
    (mergeEscalation (detectFromText ":colorscheme foo before loading")
      (inspectSource [⟨"lua/foo/init.lua", "blob"⟩, ⟨"colors/foo.lua", "blob"⟩])).detected
      = .setup ∧
    (mergeEscalation (detectFromText ":colorscheme foo before loading")
      (inspectSource [⟨"lua/foo/init.lua", "blob"⟩, ⟨"colors/foo.lua", "blob"⟩])).confidence
      = q 3 5 ∧
    q 3 5 ≠ q 1 2 := by decide

/-- C6 (amended): during escalation, for every README whose text-only
confidence is below 0.9 and every tree for which the structure extractor
produces a (necessarily non-`unknown`) winner, the final winner is
replaced by the structure winner and the final confidence becomes the
maximum of the text confidence and the structure confidence, where the
structure confidence is fixed at 0.5 whenever any structure signals
exist; with no structure result the text result is kept with its signals
merely retained. -/
theorem C6_escalation_merge (readme : String) (tree : List TreeEntry) (s : SrcResult)
    (hsrc : inspectSource tree = some s)
    (hconf : (detectFromText readme).confidence < q 9 10)
    (hdet : s.detected ≠ .unknown) :
    mergeEscalation (detectFromText readme) (inspectSource tree) =
      { detected := s.detected
        confidence := max (detectFromText readme).confidence s.confidence
        signals := (detectFromText readme).signals ++ s.signals
        needsSourceInspection := false } ∧
    s.confidence = q 1 2 ∧
    (∀ readme2 : String,
      mergeEscalation (detectFromText readme2) none =
        { detectFromText readme2 with
          signals := (detectFromText readme2).signals ++ [] }) := by
  refine ⟨?_, inspectSource_confidence tree s hsrc,
    fun readme2 => mergeEscalation_none _⟩
  rw [hsrc]
  exact mergeEscalation_some_replace _ s (Or.inr ⟨hconf, hdet⟩)

/-- C6 witness: the escalation-merge theorem applied to the concrete
README `":colorscheme foo before loading"` and a tree with a Lua module
and a `colors/*.lua` file. -/
theorem C6_witness :
    inspectSource [⟨"lua/foo/init.lua", "blob"⟩, ⟨"colors/foo.lua", "blob"⟩]
      = some ⟨.setup, q 1 2, [⟨.setup, 4, "Repo has Lua module + colors/*.lua"⟩]⟩ ∧
    (detectFromText ":colorscheme foo before loading").confidence < q 9 10 ∧
    mergeEscalation (detectFromText ":colorscheme foo before loading")
      (inspectSource [⟨"lua/foo/init.lua", "blob"⟩, ⟨"colors/foo.lua", "blob"⟩]) =
      { detected := .setup
        confidence := max (detectFromText ":colorscheme foo before loading").confidence
          (q 1 2)
        signals := (detectFromText ":colorscheme foo before loading").signals ++
          [⟨.setup, 4, "Repo has Lua module + colors/*.lua"⟩]
        needsSourceInspection := false } :=
  ⟨by decide, by decide,
    (C6_escalation_merge ":colorscheme foo before loading"
      [⟨"lua/foo/init.lua", "blob"⟩, ⟨"colors/foo.lua", "blob"⟩]
      ⟨.setup, q 1 2, [⟨.setup, 4, "Repo has Lua module + colors/*.lua"⟩]⟩
      (by decide) (by decide) (by decide)).1⟩

/-- C7 counterexample: containing an explicit setup invocation and a
colorscheme-activation command does not force `setup` to win.  When all
three colorscheme-activation variants appear, colorscheme tallies 12
while setup (with the +3 tie-break) reaches only 9, and the winner is
`colorscheme`. -/
theorem C7_counterexample :
    (computeFlags "require(\"a\").setup(x) :colorscheme f vim.cmd(\"colorscheme f\") vim.cmd.colorscheme(\"f\")").reqSetup = true ∧
    (computeFlags "require(\"a\").setup(x) :colorscheme f vim.cmd(\"colorscheme f\") vim.cmd.colorscheme(\"f\")").colorschemeCmd = true ∧
    (adjustedTally "require(\"a\").setup(x) :colorscheme f vim.cmd(\"colorscheme f\") vim.cmd.colorscheme(\"f\")").setup = 9 ∧
    (adjustedTally "require(\"a\").setup(x) :colorscheme f vim.cmd(\"colorscheme f\") vim.cmd.colorscheme(\"f\")").colorscheme = 12 ∧
    (detectFromText "require(\"a\").setup(x) :colorscheme f vim.cmd(\"colorscheme f\") vim.cmd.colorscheme(\"f\")").detected = .colorscheme ∧
    StrategyType.colorscheme ≠ StrategyType.setup := by decide

set_option maxHeartbeats 2000000 in
/-- C7 (amended): for every text on which the explicit setup-invocation
rule fires, at least one but not all three colorscheme-activation rules
fire, and no load rule fires, the +3 tie-break makes setup's adjusted
tally exceed colorscheme's adjusted tally and the winning category is
`setup`. -/
theorem C7_setup_beats_colorscheme (text : String)
    (hsetup : (computeFlags text).reqSetup = true)
    (hcs : (computeFlags text).colorschemeCmd = true ∨
      (computeFlags text).vimCmdColorscheme = true ∨
      (computeFlags text).vimCmdDotColorscheme = true)
    (hnotall : ¬((computeFlags text).colorschemeCmd = true ∧
      (computeFlags text).vimCmdColorscheme = true ∧
      (computeFlags text).vimCmdDotColorscheme = true))
    (hload1 : (computeFlags text).reqLoad = false)
    (hload2 : (computeFlags text).loadParen = false) :
    (detectFromText text).detected = .setup ∧
    (adjustedTally text).colorscheme < (adjustedTally text).setup := by
  have hreq : (computeFlags text).reqAny = true := reqAny_of_reqSetup text hsetup
  have key : ∀ f : TextFlags, f.reqSetup = true → f.reqAny = true →
      (f.colorschemeCmd = true ∨ f.vimCmdColorscheme = true ∨
        f.vimCmdDotColorscheme = true) →
      ¬(f.colorschemeCmd = true ∧ f.vimCmdColorscheme = true ∧
        f.vimCmdDotColorscheme = true) →
      f.reqLoad = false → f.loadParen = false →
      (detectFromTextFlags f).detected = .setup ∧
      (adjustTally (tallyOf (textSignals f))).colorscheme <
        (adjustTally (tallyOf (textSignals f))).setup := by
    intro f
    rcases f with ⟨b1, b2, b3, b4, b5, b6, b7, b8, b9, b10, b11, b12⟩
    intro h1 h2 h3 h4 h5 h6
    have e1 : b4 = true := h1
    have e2 : b3 = true := h2
    have e5 : b1 = false := h5
    have e6 : b2 = false := h6
    subst e1; subst e2; subst e5; subst e6
    revert h3 h4
    revert b5 b6 b7 b8 b9 b10 b11 b12
    decide
  exact key (computeFlags text) hsetup hreq hcs hnotall hload1 hload2

/-- C7 witness: the amended theorem applied to a concrete text with an
explicit setup invocation and a single colorscheme-activation command. -/
theorem C7_witness :
    (computeFlags "require(\"a\").setup(x) -- :colorscheme dusk").reqSetup = true ∧
    (computeFlags "require(\"a\").setup(x) -- :colorscheme dusk").colorschemeCmd = true ∧
    (computeFlags "require(\"a\").setup(x) -- :colorscheme dusk").reqLoad = false ∧
    (computeFlags "require(\"a\").setup(x) -- :colorscheme dusk").loadParen = false ∧
    ((detectFromText "require(\"a\").setup(x) -- :colorscheme dusk").detected = .setup ∧
      (adjustedTally "require(\"a\").setup(x) -- :colorscheme dusk").colorscheme <
        (adjustedTally "require(\"a\").setup(x) -- :colorscheme dusk").setup) :=
  ⟨by decide, by decide, by decide, by decide,
    C7_setup_beats_colorscheme "require(\"a\").setup(x) -- :colorscheme dusk"
      (by decide) (Or.inl (by decide)) (by decide) (by decide) (by decide)⟩

/-- C8 counterexample: on the text of Scenario A the adjusted setup tally
is 11, not 9 — the claim overlooks the `setup(\x7b...\x7d)` options-block
rule, which also fires on the literal braces and adds 2. -/
theorem C8_counterexample :
    (adjustedTally "require(\"foo\").setup(\x7b...\x7d) ... :colorscheme foo").setup
      = 11 ∧ (11 : ℚ) ≠ 9 := by decide

/-- C8 (amended): on the text
`require("foo").setup(\x7b...\x7d) ... :colorscheme foo` with no hint, the
adjusted tallies are setup = 11 (6 explicit + 2 options block + 3
tie-break) and colorscheme = 4, the winner is `setup`, and the confidence
is `min(1, 11/10 + 7/10) = 1.0`. -/
theorem C8_scenario_a :
    (adjustedTally "require(\"foo\").setup(\x7b...\x7d) ... :colorscheme foo").setup
      = 11 ∧
    (adjustedTally "require(\"foo\").setup(\x7b...\x7d) ... :colorscheme foo").colorscheme
      = 4 ∧
    (detectFromText "require(\"foo\").setup(\x7b...\x7d) ... :colorscheme foo").detected
      = .setup ∧
    (detectFromText "require(\"foo\").setup(\x7b...\x7d) ... :colorscheme foo").confidence
      = 1 ∧
    min 1 (addQ (divN 11 10) (divN 7 10)) = 1 := by decide

/-- C9 counterexample: the variant name rules are anchored suffix
patterns, not substring containment.  The name "daybreak" contains the
light-suggestive substring "day" yet the classifier returns no mode. -/
theorem C9_counterexample :
    search (litPat "day") (lowerChars "daybreak".toList) = true ∧
    detectVariantModeFromName "daybreak" = none ∧
    (none : Option ThemeMode) ≠ some ThemeMode.light := by decide

/-- C9 (amended): outside the base16 special family, a variant name
ending (case-insensitively) in one of the listed light-suggestive
suffixes is classified light (the light list is checked before the dark
list), a name ending in a dark-suggestive suffix but no light one is
classified dark, and a name matching no rule yields mode undefined with
confidence 0 and source `unknown`. -/
theorem C9_variant_mode_suffixes (name : String)
    (hb1 : base16LightTest (lowerChars name.toList) = false)
    (hb2 : base16DarkTest (lowerChars name.toList) = false) :
    ((∃ w ∈ LIGHT_PATTERNS, w.toList <:+ lowerChars name.toList) →
      detectVariantModeFromName name = some .light) ∧
    ((∀ w ∈ LIGHT_PATTERNS, ¬ (w.toList <:+ lowerChars name.toList)) →
      (∃ w ∈ DARK_PATTERNS, w.toList <:+ lowerChars name.toList) →
      detectVariantModeFromName name = some .dark) ∧
    ((∀ w ∈ LIGHT_PATTERNS, ¬ (w.toList <:+ lowerChars name.toList)) →
      (∀ w ∈ DARK_PATTERNS, ¬ (w.toList <:+ lowerChars name.toList)) →
      detectVariantModeFromName name = none ∧
      ∀ v : Variant, v.name = name →
        detectVariantModesFromNames (some [v]) =
          [{ name := v.name, detectedMode := none, confidence := 0,
             source := .unknown, reason := none }]) := by
  have hopen : detectVariantModeFromName name =
      (if base16LightTest (lowerChars name.toList) = true then some .light
       else if base16DarkTest (lowerChars name.toList) = true then some .dark
       else if LIGHT_PATTERNS.any
          (fun p => suffixTest p (lowerChars name.toList)) = true then some .light
       else if DARK_PATTERNS.any
          (fun p => suffixTest p (lowerChars name.toList)) = true then some .dark
       else none) := rfl
  rw [hopen, hb1, hb2]
  simp only [Bool.false_eq_true, if_false]
  refine ⟨?_, ?_, ?_⟩
  · rintro ⟨w, hw, hsuf⟩
    have hany : LIGHT_PATTERNS.any
        (fun p => suffixTest p (lowerChars name.toList)) = true :=
      List.any_eq_true.mpr ⟨w, hw, (suffixTest_iff w _).mpr hsuf⟩
    rw [hany]
    rfl
  · rintro hforall ⟨w, hw, hsuf⟩
    have hanyL : LIGHT_PATTERNS.any
        (fun p => suffixTest p (lowerChars name.toList)) = false := by
      cases hA : LIGHT_PATTERNS.any (fun p => suffixTest p (lowerChars name.toList)) with
      | false => rfl
      | true =>
        rcases List.any_eq_true.mp hA with ⟨w2, hw2, hs2⟩
        exact absurd ((suffixTest_iff w2 _).mp hs2) (hforall w2 hw2)
    have hanyD : DARK_PATTERNS.any
        (fun p => suffixTest p (lowerChars name.toList)) = true :=
      List.any_eq_true.mpr ⟨w, hw, (suffixTest_iff w _).mpr hsuf⟩
    rw [hanyL, hanyD]
    rfl
  · intro hfL hfD
    have hanyL : LIGHT_PATTERNS.any
        (fun p => suffixTest p (lowerChars name.toList)) = false := by
      cases hA : LIGHT_PATTERNS.any (fun p => suffixTest p (lowerChars name.toList)) with
      | false => rfl
      | true =>
        rcases List.any_eq_true.mp hA with ⟨w2, hw2, hs2⟩
        exact absurd ((suffixTest_iff w2 _).mp hs2) (hfL w2 hw2)
    have hanyD : DARK_PATTERNS.any
        (fun p => suffixTest p (lowerChars name.toList)) = false := by
      cases hA : DARK_PATTERNS.any (fun p => suffixTest p (lowerChars name.toList)) with
      | false => rfl
      | true =>
        rcases List.any_eq_true.mp hA with ⟨w2, hw2, hs2⟩
        exact absurd ((suffixTest_iff w2 _).mp hs2) (hfD w2 hw2)
    rw [hanyL, hanyD]
    have hnone : (if (false = true) then some ThemeMode.light
        else if (false = true) then some ThemeMode.dark else none) =
        (none : Option ThemeMode) := rfl
    refine ⟨hnone, ?_⟩
    intro v hv
    have hmode : detectVariantModeFromName v.name = none := by
      rw [hv, hopen, hb1, hb2]
      simp only [Bool.false_eq_true, if_false]
      rw [hanyL, hanyD]
      rfl
    have hopen2 : detectVariantModesFromNames (some [v]) =
        [match detectVariantModeFromName v.name with
         | some mode =>
           { name := v.name
             detectedMode := some mode
             confidence := q 9 10
             source := .pattern
             reason := some ("Name matches " ++ modeStr mode ++ " pattern") }
         | none =>
           ({ name := v.name, detectedMode := none, confidence := 0,
              source := .unknown, reason := none } : VariantModeResult)] := rfl
    rw [hopen2, hmode]

/-- C9 witness: the amended theorem applied to the no-rule name
"kanagawa-lotus": mode undefined, confidence 0, source `unknown`. -/
theorem C9_witness :
    base16LightTest (lowerChars "kanagawa-lotus".toList) = false ∧
    base16DarkTest (lowerChars "kanagawa-lotus".toList) = false ∧
    (detectVariantModeFromName "kanagawa-lotus" = none ∧
      detectVariantModesFromNames (some [⟨"kanagawa-lotus", none, none⟩]) =
        [{ name := "kanagawa-lotus", detectedMode := none, confidence := 0,
           source := .unknown, reason := none }]) :=
  ⟨by decide, by decide, by
    have h := (C9_variant_mode_suffixes "kanagawa-lotus" (by decide) (by decide)).2.2
      (by decide) (by decide)
    exact ⟨h.1, h.2 ⟨"kanagawa-lotus", none, none⟩ rfl⟩⟩

end ThemeBrowser
